import Mathlib

/-!
# Verification of the Flomo Garden synchronization / query / export frontend

Shallow embedding of the TypeScript frontend (`src/App.tsx`, `src/SyncModal.tsx`,
`src/ExportPreview.tsx`) together with spec-modelled definitions for the Rust
backend commands (`get_memos_from_db`, `sync_all_memos`, `cancel_sync`,
`format_memos_*_with_options`) whose source is not part of this repository
snapshot; those are marked `Modelled from the spec:` in their doc comments.

Timestamps are kept as strings, exactly as in the TypeScript `Memo` interface;
JavaScript compares them with `<` / `>` lexicographically, which Lean's
`String` order mirrors.  `Array.prototype.sort` is stable, so a JS sort with a
consistent comparator `cmp` is modelled as `List.insertionSort` with the
non-strict relation `cmp a b ≤ 0`: insertion sort with a non-strict relation
places each element before the elements it ties with that come later in the
input, which is exactly the stable-sort output.
-/

/-- A memo record, as declared in the frontend `Memo` interface:
slug, content, created_at, updated_at, tags, optional url. -/
structure Memo where
  slug : String
  content : String
  created_at : String
  updated_at : String
  tags : List String
  url : Option String
deriving DecidableEq

/-- The `order_by` union type of the frontend (`"created_at" | "updated_at"`). -/
inductive OrderBy where
  | created_at
  | updated_at
deriving DecidableEq

/-- The `order_dir` union type of the frontend (`"asc" | "desc"`). -/
inductive OrderDir where
  | asc
  | desc
deriving DecidableEq

/-- The field projection `a[orderBy]` used by the sort comparators. -/
def Memo.orderKey (ob : OrderBy) (m : Memo) : String :=
  match ob with
  | .created_at => m.created_at
  | .updated_at => m.updated_at

/-- The comparator of `ExportPreview.getProcessedMemos`:
for `asc` it returns `aValue < bValue ? -1 : aValue > bValue ? 1 : 0`,
for `desc` it returns `aValue > bValue ? -1 : aValue < bValue ? 1 : 0`. -/
def exportCmp (ob : OrderBy) (dir : OrderDir) (a b : Memo) : Int :=
  let aValue := a.orderKey ob
  let bValue := b.orderKey ob
  match dir with
  | .asc => if aValue < bValue then -1 else if bValue < aValue then 1 else 0
  | .desc => if bValue < aValue then -1 else if aValue < bValue then 1 else 0

/-- The non-strict relation induced by the JS comparator: `a` may be placed
(weakly) before `b` exactly when `exportCmp a b ≤ 0`. -/
def exportLe (ob : OrderBy) (dir : OrderDir) (a b : Memo) : Prop :=
  exportCmp ob dir a b ≤ 0

instance (ob : OrderBy) (dir : OrderDir) : DecidableRel (exportLe ob dir) :=
  fun a b => by unfold exportLe; infer_instance

/-- The call `[...memos].sort(cmp)` of `ExportPreview.getProcessedMemos`: a stable sort
with the comparator `exportCmp`, modelled as insertion sort over `exportLe`. -/
def jsSortMemos (ob : OrderBy) (dir : OrderDir) (memos : List Memo) : List Memo :=
  List.insertionSort (exportLe ob dir) memos

/-- Strict comparison on the primary sort field, in the requested direction. -/
def primLt (ob : OrderBy) (dir : OrderDir) (a b : Memo) : Prop :=
  match dir with
  | .asc => a.orderKey ob < b.orderKey ob
  | .desc => b.orderKey ob < a.orderKey ob

/-- Modelled from the spec: the Local Store's `get_page` ordering
(`db.rs`, not in this snapshot) — "stable deterministic ordering by the given
field, ties broken by slug to guarantee total order". -/
def storeLe (ob : OrderBy) (dir : OrderDir) (a b : Memo) : Prop :=
  primLt ob dir a b ∨ (a.orderKey ob = b.orderKey ob ∧ a.slug ≤ b.slug)

instance (ob : OrderBy) (dir : OrderDir) : DecidableRel (storeLe ob dir) :=
  fun a b => by unfold storeLe primLt; cases dir <;> infer_instance

/-- Modelled from the spec: the store's sorted view used by `get_page`. -/
def storeSort (ob : OrderBy) (dir : OrderDir) (store : List Memo) : List Memo :=
  List.insertionSort (storeLe ob dir) store

/-- Modelled from the spec: the backend command `get_memos_from_db`
(`db.rs`, not in this snapshot) — returns the slice `[offset, offset+limit)`
of the store sorted by the given field and direction, ties broken by slug. -/
def getMemosFromDb (store : List Memo) (ob : OrderBy) (dir : OrderDir)
    (offset limit : Nat) : List Memo :=
  ((storeSort ob dir store).drop offset).take limit

/-- The page post-processing of the `memos` `queryFn` in `App`:
`hasMore = memos.length > limit` (with `limit = 50`), and when `hasMore`
the extra probe row is removed with `memos.pop()`. -/
def queryFnPage (fetched : List Memo) : List Memo × Bool :=
  if 50 < fetched.length then (fetched.dropLast, true) else (fetched, false)

theorem queryFnPage_snd (fetched : List Memo) :
    (queryFnPage fetched).2 = true ↔ 50 < fetched.length := by
  unfold queryFnPage
  by_cases h : 50 < fetched.length <;> simp [h]

/-- The infinite-query loop of `App`: request the page at `offset` with
`limit + 1 = 51` rows, keep the page part, and when `has_more` continue at
`getNextPageParam = offset + 50`; the concatenation of the delivered pages
(as `getAllMemos` flat-maps them). -/
def collectPages (store : List Memo) (ob : OrderBy) (dir : OrderDir)
    (offset : Nat) : List Memo :=
  if h : (queryFnPage (getMemosFromDb store ob dir offset (50 + 1))).2 = true then
    (queryFnPage (getMemosFromDb store ob dir offset (50 + 1))).1 ++
      collectPages store ob dir (offset + 50)
  else
    (queryFnPage (getMemosFromDb store ob dir offset (50 + 1))).1
termination_by (storeSort ob dir store).length - offset
decreasing_by
  rw [queryFnPage_snd] at h
  unfold getMemosFromDb at h
  simp only [List.length_take, List.length_drop] at h
  omega

theorem queryFnPage_fst_of_lt {fetched : List Memo} (h : 50 < fetched.length) :
    (queryFnPage fetched).1 = fetched.dropLast := by
  unfold queryFnPage
  simp [h]

theorem queryFnPage_fst_of_not_lt {fetched : List Memo} (h : ¬ 50 < fetched.length) :
    (queryFnPage fetched).1 = fetched := by
  unfold queryFnPage
  simp [h]

theorem dropLast_take_succ {α : Type} (xs : List α) (n : Nat) (h : n + 1 ≤ xs.length) :
    (xs.take (n + 1)).dropLast = xs.take n := by
  have hlen : (xs.take (n + 1)).length = n + 1 := by
    rw [List.length_take]
    omega
  rw [List.dropLast_eq_take, hlen, List.take_take]
  congr 1
  omega

/-- Fetching successive pages at offsets `offset, offset + 50, …` against an
unchanged store reassembles exactly the sorted store from `offset` on. -/
theorem collectPages_eq_drop (store : List Memo) (ob : OrderBy) (dir : OrderDir)
    (offset : Nat) :
    collectPages store ob dir offset = (storeSort ob dir store).drop offset := by
  rw [collectPages]
  by_cases h : (queryFnPage (getMemosFromDb store ob dir offset (50 + 1))).2 = true
  · rw [dif_pos h, collectPages_eq_drop store ob dir (offset + 50)]
    rw [queryFnPage_snd] at h
    have h51 : 50 + 1 ≤ ((storeSort ob dir store).drop offset).length := by
      unfold getMemosFromDb at h
      simp only [List.length_take, List.length_drop] at h
      simp only [List.length_drop]
      omega
    rw [queryFnPage_fst_of_lt h]
    unfold getMemosFromDb
    rw [dropLast_take_succ _ 50 h51]
    rw [← List.drop_drop]
    exact List.take_append_drop 50 ((storeSort ob dir store).drop offset)
  · rw [dif_neg h]
    rw [queryFnPage_snd] at h
    rw [queryFnPage_fst_of_not_lt h]
    unfold getMemosFromDb at h ⊢
    apply List.take_of_length_le
    simp only [List.length_take, List.length_drop] at h
    simp only [List.length_drop]
    omega
termination_by (storeSort ob dir store).length - offset
decreasing_by
  rw [queryFnPage_snd] at h
  unfold getMemosFromDb at h
  simp only [List.length_take, List.length_drop] at h
  omega

def memoA : Memo :=
  { slug := "a", content := "alpha", created_at := "2024-01-01", updated_at := "2024-01-02",
    tags := [], url := none }

def memoB : Memo :=
  { slug := "b", content := "beta", created_at := "2024-01-01", updated_at := "2024-01-03",
    tags := ["t"], url := some "https://v.flomoapp.com/mine/?memo_id=b" }

def memoC : Memo :=
  { slug := "c", content := "gamma", created_at := "2024-02-01", updated_at := "2024-02-02",
    tags := [], url := none }

def demoStore : List Memo := [memoA, memoB, memoC]

/-- C1: for a fixed order_by/dir and an unmutated store, requesting pages at
offsets 0, 50, 100, … (as the memos infinite query does via
`getNextPageParam = offset + 50`) until `has_more` is false yields exactly
`total_memos` distinct slugs — no duplicate and no missing slug. -/
theorem c1_pagination_exhaustive (store : List Memo) (ob : OrderBy) (dir : OrderDir)
    (h : (store.map Memo.slug).Nodup) :
    ((collectPages store ob dir 0).map Memo.slug).Perm (store.map Memo.slug) ∧
    ((collectPages store ob dir 0).map Memo.slug).Nodup ∧
    (collectPages store ob dir 0).length = store.length := by
  have hperm : (collectPages store ob dir 0).Perm store := by
    rw [collectPages_eq_drop, List.drop_zero]
    exact List.perm_insertionSort _ store
  have hmap := hperm.map Memo.slug
  exact ⟨hmap, hmap.nodup_iff.mpr h, hperm.length_eq⟩

theorem c1_pagination_exhaustive_witness :
    (demoStore.map Memo.slug).Nodup ∧
    (((collectPages demoStore .created_at .desc 0).map Memo.slug).Perm
        (demoStore.map Memo.slug) ∧
      ((collectPages demoStore .created_at .desc 0).map Memo.slug).Nodup ∧
      (collectPages demoStore .created_at .desc 0).length = demoStore.length) :=
  ⟨by decide, c1_pagination_exhaustive demoStore .created_at .desc (by decide)⟩

theorem exportLe_asc_iff (ob : OrderBy) (a b : Memo) :
    exportLe ob .asc a b ↔ a.orderKey ob ≤ b.orderKey ob := by
  unfold exportLe exportCmp
  rcases lt_trichotomy (a.orderKey ob) (b.orderKey ob) with h | h | h
  · simp [h, le_of_lt h]
  · simp [h]
  · simp [lt_asymm h, h, not_le.mpr h]

theorem exportLe_desc_iff (ob : OrderBy) (a b : Memo) :
    exportLe ob .desc a b ↔ b.orderKey ob ≤ a.orderKey ob := by
  unfold exportLe exportCmp
  rcases lt_trichotomy (b.orderKey ob) (a.orderKey ob) with h | h | h
  · simp [h, le_of_lt h]
  · simp [h]
  · simp [lt_asymm h, h, not_le.mpr h]

instance (ob : OrderBy) (dir : OrderDir) : IsTotal Memo (exportLe ob dir) where
  total a b := by
    cases dir
    · rw [exportLe_asc_iff, exportLe_asc_iff]
      exact le_total _ _
    · rw [exportLe_desc_iff, exportLe_desc_iff]
      exact le_total _ _

instance (ob : OrderBy) (dir : OrderDir) : IsTrans Memo (exportLe ob dir) where
  trans a b c hab hbc := by
    cases dir
    · rw [exportLe_asc_iff] at hab hbc ⊢
      exact le_trans hab hbc
    · rw [exportLe_desc_iff] at hab hbc ⊢
      exact le_trans hbc hab

def memoTieA : Memo :=
  { slug := "a", content := "x", created_at := "2024-01-01", updated_at := "2024-01-05",
    tags := [], url := none }

def memoTieB : Memo :=
  { slug := "b", content := "y", created_at := "2024-01-01", updated_at := "2024-01-06",
    tags := [], url := none }

theorem exportLe_tieAB : exportLe .created_at .desc memoTieA memoTieB := by
  rw [exportLe_desc_iff]
  exact le_of_eq rfl

theorem exportLe_tieBA : exportLe .created_at .desc memoTieB memoTieA := by
  rw [exportLe_desc_iff]
  exact le_of_eq rfl

theorem jsSort_tieAB :
    jsSortMemos .created_at .desc [memoTieA, memoTieB] = [memoTieA, memoTieB] := by
  unfold jsSortMemos
  simp only [List.insertionSort, List.orderedInsert_nil]
  exact List.orderedInsert_of_le (r := exportLe .created_at .desc) _ exportLe_tieAB

theorem jsSort_tieBA :
    jsSortMemos .created_at .desc [memoTieB, memoTieA] = [memoTieB, memoTieA] := by
  unfold jsSortMemos
  simp only [List.insertionSort, List.orderedInsert_nil]
  exact List.orderedInsert_of_le (r := exportLe .created_at .desc) _ exportLe_tieBA

/-- C2 counterexample: the export sort comparator returns 0 on equal field
values and the stable JS sort keeps ties in input order, so two permutations
of the same memo list sort to different results — the order is not a total
order independent of input order, and ties are not broken by slug. -/
theorem c2_order_counterexample :
    List.Perm [memoTieA, memoTieB] [memoTieB, memoTieA] ∧
    jsSortMemos .created_at .desc [memoTieA, memoTieB] ≠
      jsSortMemos .created_at .desc [memoTieB, memoTieA] := by
  refine ⟨List.Perm.swap _ _ _, ?_⟩
  rw [jsSort_tieAB, jsSort_tieBA]
  decide

/-- C2 (amended): the export ordering is a deterministic function of the
input list — the output is a permutation of the input that is sorted by the
chosen field and direction; ties between equal field values preserve input
order (stable sort) instead of being broken by slug. -/
theorem c2_order_amended (memos : List Memo) (ob : OrderBy) (dir : OrderDir) :
    (jsSortMemos ob dir memos).Perm memos ∧
    List.Sorted (exportLe ob dir) (jsSortMemos ob dir memos) :=
  ⟨List.perm_insertionSort _ memos, List.sorted_insertionSort _ memos⟩

/-- The progress payload pushed on the `sync-progress` event channel. -/
structure SyncProgress where
  total : Int
  current : Int
  status : String
  message : String
deriving DecidableEq

/-- The singleton sync-metadata record as the frontend receives it from
`get_sync_status`. -/
structure SyncStatus where
  id : Int
  last_sync_at : Option String
  total_memos : Int
  status : String
  error_message : Option String
deriving DecidableEq

/-- The local component state of `SyncModal`. -/
structure SyncModalState where
  progress : Option SyncProgress
  syncStatus : Option SyncStatus
  issyncing : Bool
  isCancelling : Bool
deriving DecidableEq

/-- A backend command invocation issued through `invoke`. -/
inductive BackendRequest where
  | syncAllMemos (token : String)
  | cancelSyncCmd
  | clearLocalData
deriving DecidableEq

/-- Function `SyncModal.startSync`: returns immediately when the token is empty
(`!token`) or a sync is already in flight (`issyncing`); otherwise sets
`issyncing`, resets progress to the "starting" snapshot, and issues the
`sync_all_memos` request. -/
def startSync (token : String) (s : SyncModalState) :
    SyncModalState × List BackendRequest :=
  if token = "" ∨ s.issyncing = true then (s, [])
  else
    ({ s with issyncing := true,
              progress := some { total := 0, current := 0, status := "starting",
                                 message := "Starting synchronization..." } },
     [BackendRequest.syncAllMemos token])

/-- Function `SyncModal.cancelSync`: returns immediately when no sync is running or a
cancel is already pending; otherwise records `isCancelling` and issues the
`cancel_sync` request. -/
def cancelSync (s : SyncModalState) : SyncModalState × List BackendRequest :=
  if s.issyncing = false ∨ s.isCancelling = true then (s, [])
  else ({ s with isCancelling := true }, [BackendRequest.cancelSyncCmd])

/-- Modelled from the spec: the Sync Orchestrator's observable state — store
contents, current status, and the shared cancellation signal. -/
structure OrchestratorState where
  store : List Memo
  status : String
  cancelRequested : Bool
deriving DecidableEq

/-- Modelled from the spec: `cancel_sync` "sets a shared cancellation signal"
and nothing else — it does not force an immediate stop. -/
def cancelSyncBackend (o : OrchestratorState) : OrchestratorState :=
  { o with cancelRequested := true }

/-- Modelled from the spec: upsert by slug — insert on first observation,
overwrite the prior row only if not already superseded (last-write-wins by
`updated_at`). -/
def upsertOne (store : List Memo) (m : Memo) : List Memo :=
  match store with
  | [] => [m]
  | x :: xs =>
      if x.slug = m.slug then
        if m.updated_at < x.updated_at then x :: xs else m :: xs
      else
        x :: upsertOne xs m

/-- Modelled from the spec: `upsert_page` applies one fetched page as a batch. -/
def upsertPage (store : List Memo) (page : List Memo) : List Memo :=
  page.foldl upsertOne store

/-- Modelled from the spec: the fetch→upsert loop applies pages strictly in
order, checking the cancellation signal only at page boundaries; when the
signal is observed the loop stops without applying further pages and
terminates with status `cancelled`; on natural end it completes. -/
def syncRun (o : OrchestratorState) (pages : List (List Memo)) :
    OrchestratorState :=
  match pages with
  | [] => { o with status := "completed" }
  | p :: rest =>
      if o.cancelRequested = true then { o with status := "cancelled" }
      else syncRun { o with store := upsertPage o.store p } rest

/-- C3: while a sync is in flight (the `issyncing` guard of
`SyncModal.startSync`), invoking start again is a no-op — no second
`sync_all_memos` request is issued and the modal/sync state is unchanged. -/
theorem c3_start_while_running (token : String) (s : SyncModalState)
    (h : s.issyncing = true) :
    startSync token s = (s, []) := by
  unfold startSync
  simp [h]

def runningState : SyncModalState :=
  { progress := some { total := 100, current := 50, status := "syncing",
                       message := "Syncing memos..." },
    syncStatus := none, issyncing := true, isCancelling := false }

theorem c3_start_while_running_witness :
    runningState.issyncing = true ∧
    startSync "token123" runningState = (runningState, []) :=
  ⟨rfl, c3_start_while_running "token123" runningState rfl⟩

/-- C6: a sync is never started with an empty token — `startSync` with `""`
issues no request and leaves all state unchanged. -/
theorem c6_empty_token_no_sync (s : SyncModalState) :
    startSync "" s = (s, []) := by
  unfold startSync
  simp

/-- C4: cancelling while idle is a no-op (no request, no state change);
while a sync runs, the frontend only records `isCancelling` and issues the
`cancel_sync` request, the backend cancel only sets the shared signal
(status and store untouched), and the loop honours it only at the next page
boundary, ending `cancelled` with no further page applied. -/
theorem c4_cancel_semantics (s t : SyncModalState) (o : OrchestratorState)
    (p : List Memo) (rest : List (List Memo))
    (hidle : s.issyncing = false)
    (hrun : t.issyncing = true) (hnc : t.isCancelling = false)
    (hcancel : o.cancelRequested = true) :
    cancelSync s = (s, []) ∧
    cancelSync t = ({ t with isCancelling := true }, [BackendRequest.cancelSyncCmd]) ∧
    (cancelSyncBackend o).store = o.store ∧
    (cancelSyncBackend o).status = o.status ∧
    (cancelSyncBackend o).cancelRequested = true ∧
    syncRun o (p :: rest) = { o with status := "cancelled" } := by
  refine ⟨?_, ?_, rfl, rfl, rfl, ?_⟩
  · unfold cancelSync
    simp [hidle]
  · unfold cancelSync
    simp [hrun, hnc]
  · unfold syncRun
    simp [hcancel]

def idleState : SyncModalState :=
  { progress := none, syncStatus := none, issyncing := false, isCancelling := false }

def cancelOrch : OrchestratorState :=
  { store := [memoA], status := "syncing", cancelRequested := true }

theorem c4_cancel_semantics_witness :
    (idleState.issyncing = false ∧ runningState.issyncing = true ∧
      runningState.isCancelling = false ∧ cancelOrch.cancelRequested = true) ∧
    (cancelSync idleState = (idleState, []) ∧
      cancelSync runningState =
        ({ runningState with isCancelling := true }, [BackendRequest.cancelSyncCmd]) ∧
      (cancelSyncBackend cancelOrch).store = cancelOrch.store ∧
      (cancelSyncBackend cancelOrch).status = cancelOrch.status ∧
      (cancelSyncBackend cancelOrch).cancelRequested = true ∧
      syncRun cancelOrch ([memoB] :: [[memoC]]) =
        { cancelOrch with status := "cancelled" }) :=
  ⟨⟨rfl, rfl, rfl, rfl⟩,
    c4_cancel_semantics idleState runningState cancelOrch [memoB] [[memoC]]
      rfl rfl rfl rfl⟩

/-- Function `SyncModal.getProgressPercentage`: 0 when there is no progress or
`total === 0`, otherwise `Math.round((current / total) * 100)`;
`Math.round x` is `⌊x + 1/2⌋` for the non-negative arguments at hand. -/
def getProgressPercentage (progress : Option SyncProgress) : Int :=
  match progress with
  | none => 0
  | some p =>
      if p.total = 0 then 0
      else ⌊((p.current : ℚ) / (p.total : ℚ)) * 100 + 1 / 2⌋

/-- C9: the percentage computation is total — it returns 0 when progress is
absent or `total = 0`, never divides by a zero total, and whenever
`0 ≤ current ≤ total` the rounded percentage lies in `[0, 100]`. -/
theorem c9_percentage_bounds (p : SyncProgress)
    (h0 : 0 ≤ p.current) (h1 : p.current ≤ p.total) :
    getProgressPercentage none = 0 ∧
    (p.total = 0 → getProgressPercentage (some p) = 0) ∧
    (p.total ≠ 0 →
      getProgressPercentage (some p) =
        ⌊((p.current : ℚ) / (p.total : ℚ)) * 100 + 1 / 2⌋) ∧
    0 ≤ getProgressPercentage (some p) ∧
    getProgressPercentage (some p) ≤ 100 := by
  refine ⟨rfl, ?_, ?_, ?_, ?_⟩
  · intro ht
    unfold getProgressPercentage
    simp [ht]
  · intro ht
    unfold getProgressPercentage
    simp [ht]
  · unfold getProgressPercentage
    by_cases ht : p.total = 0
    · simp [ht]
    · simp only [ht, if_false]
      have htpos : (0 : ℚ) < (p.total : ℚ) := by
        have h2 : 0 < p.total := lt_of_le_of_ne (le_trans h0 h1) (Ne.symm ht)
        exact_mod_cast h2
      have hx : (0 : ℚ) ≤ ((p.current : ℚ) / (p.total : ℚ)) * 100 := by
        apply mul_nonneg
        · exact div_nonneg (by exact_mod_cast h0) (le_of_lt htpos)
        · norm_num
      have hy : (0 : ℚ) ≤ ((p.current : ℚ) / (p.total : ℚ)) * 100 + 1 / 2 := by
        linarith
      exact Int.le_floor.mpr (by exact_mod_cast hy)
  · unfold getProgressPercentage
    by_cases ht : p.total = 0
    · simp [ht]
    · simp only [ht, if_false]
      have htpos : (0 : ℚ) < (p.total : ℚ) := by
        have h2 : 0 < p.total := lt_of_le_of_ne (le_trans h0 h1) (Ne.symm ht)
        exact_mod_cast h2
      have hfrac : ((p.current : ℚ) / (p.total : ℚ)) ≤ 1 := by
        rw [div_le_one htpos]
        exact_mod_cast h1
      have hlt : ((p.current : ℚ) / (p.total : ℚ)) * 100 + 1 / 2 < 101 := by
        nlinarith
      rw [Int.floor_le_iff]
      push_cast
      linarith

def progressHalf : SyncProgress :=
  { total := 200, current := 50, status := "syncing", message := "Syncing memos..." }

theorem c9_percentage_bounds_witness :
    ((0 : Int) ≤ progressHalf.current ∧ progressHalf.current ≤ progressHalf.total) ∧
    (getProgressPercentage none = 0 ∧
      (progressHalf.total = 0 → getProgressPercentage (some progressHalf) = 0) ∧
      (progressHalf.total ≠ 0 →
        getProgressPercentage (some progressHalf) =
          ⌊((progressHalf.current : ℚ) / (progressHalf.total : ℚ)) * 100 + 1 / 2⌋) ∧
      0 ≤ getProgressPercentage (some progressHalf) ∧
      getProgressPercentage (some progressHalf) ≤ 100) :=
  ⟨⟨by decide, by decide⟩,
    c9_percentage_bounds progressHalf (by decide) (by decide)⟩

/-- Modelled from the spec: querying the store for the record with a slug. -/
def lookupSlug (store : List Memo) (sl : String) : Option Memo :=
  store.find? (fun m => decide (m.slug = sl))

theorem upsertOne_absent {store : List Memo} {m : Memo}
    (h : ∀ x ∈ store, x.slug ≠ m.slug) : upsertOne store m = store ++ [m] := by
  induction store with
  | nil => rfl
  | cons x xs ih =>
      have hx : x.slug ≠ m.slug := h x (by simp)
      simp only [upsertOne, if_neg hx, List.cons_append]
      rw [ih (fun y hy => h y (by simp [hy]))]

theorem upsertOne_append_match {store : List Memo} {x m : Memo}
    (h : ∀ y ∈ store, y.slug ≠ m.slug) (hx : x.slug = m.slug) :
    upsertOne (store ++ [x]) m =
      store ++ [if m.updated_at < x.updated_at then x else m] := by
  induction store with
  | nil =>
      simp only [List.nil_append, upsertOne, if_pos hx]
      split <;> rfl
  | cons y ys ih =>
      have hy : y.slug ≠ m.slug := h y (by simp)
      simp only [List.cons_append, upsertOne, if_neg hy, List.append_eq]
      rw [ih (fun z hz => h z (by simp [hz]))]

theorem lookupSlug_append_last {store : List Memo} {z : Memo} {sl : String}
    (h : ∀ y ∈ store, y.slug ≠ sl) (hz : z.slug = sl) :
    lookupSlug (store ++ [z]) sl = some z := by
  unfold lookupSlug
  rw [List.find?_append]
  have h1 : store.find? (fun m => decide (m.slug = sl)) = none := by
    rw [List.find?_eq_none]
    intro x hx
    simp [h x hx]
  rw [h1]
  simp [List.find?, hz]

/-- C7: last-write-wins by `updated_at` — when the same slug is observed in
two successive upserted pages of one run with distinct `updated_at`, the
record stored for that slug afterwards is the observed version with the
greater `updated_at`. -/
theorem c7_last_write_wins (store : List Memo) (r1 r2 : Memo)
    (hslug : r1.slug = r2.slug)
    (habsent : ∀ x ∈ store, x.slug ≠ r1.slug)
    (hne : r1.updated_at ≠ r2.updated_at) :
    lookupSlug (upsertPage (upsertPage store [r1]) [r2]) r1.slug =
      some (if r1.updated_at < r2.updated_at then r2 else r1) := by
  have habsent2 : ∀ x ∈ store, x.slug ≠ r2.slug := fun x hx => hslug ▸ habsent x hx
  have step1 : upsertPage store [r1] = store ++ [r1] := by
    unfold upsertPage
    simp only [List.foldl_cons, List.foldl_nil]
    exact upsertOne_absent habsent
  have step2 : upsertPage (store ++ [r1]) [r2] =
      store ++ [if r2.updated_at < r1.updated_at then r1 else r2] := by
    unfold upsertPage
    simp only [List.foldl_cons, List.foldl_nil]
    exact upsertOne_append_match habsent2 hslug
  rw [step1, step2]
  have hz : (if r2.updated_at < r1.updated_at then r1 else r2).slug = r1.slug := by
    split
    · rfl
    · exact hslug.symm
  rw [lookupSlug_append_last habsent hz]
  rcases lt_trichotomy r1.updated_at r2.updated_at with h | h | h
  · rw [if_neg (lt_asymm h), if_pos h]
  · exact absurd h hne
  · rw [if_pos h, if_neg (lt_asymm h)]

def lwwOld : Memo :=
  { slug := "s", content := "old body", created_at := "2024-01-01",
    updated_at := "2024-01-02", tags := [], url := none }

def lwwNew : Memo :=
  { slug := "s", content := "new body", created_at := "2024-01-01",
    updated_at := "2024-01-03", tags := [], url := none }

theorem c7_last_write_wins_witness :
    (lwwOld.slug = lwwNew.slug ∧ (∀ x ∈ [memoC], x.slug ≠ lwwOld.slug) ∧
      lwwOld.updated_at ≠ lwwNew.updated_at) ∧
    lookupSlug (upsertPage (upsertPage [memoC] [lwwOld]) [lwwNew]) lwwOld.slug =
      some (if lwwOld.updated_at < lwwNew.updated_at then lwwNew else lwwOld) :=
  ⟨⟨rfl, by decide, by decide⟩,
    c7_last_write_wins [memoC] lwwOld lwwNew rfl (by decide) (by decide)⟩

/-- C8: each delivered page holds at most 50 memos; `has_more` is true
exactly when the `limit + 1 = 51`-row probe fetch returned strictly more
than 50 rows; the probe row is removed before the page is returned — the
page is exactly the first 50 fetched rows. -/
theorem c8_page_probe (store : List Memo) (ob : OrderBy) (dir : OrderDir)
    (offset : Nat) :
    (getMemosFromDb store ob dir offset (50 + 1)).length ≤ 50 + 1 ∧
    (queryFnPage (getMemosFromDb store ob dir offset (50 + 1))).1.length ≤ 50 ∧
    ((queryFnPage (getMemosFromDb store ob dir offset (50 + 1))).2 = true ↔
      50 < (getMemosFromDb store ob dir offset (50 + 1)).length) ∧
    (queryFnPage (getMemosFromDb store ob dir offset (50 + 1))).1 =
      (getMemosFromDb store ob dir offset (50 + 1)).take 50 := by
  have hlen : (getMemosFromDb store ob dir offset (50 + 1)).length ≤ 50 + 1 := by
    unfold getMemosFromDb
    simp only [List.length_take, List.length_drop]
    omega
  refine ⟨hlen, ?_, queryFnPage_snd _, ?_⟩
  · by_cases h : 50 < (getMemosFromDb store ob dir offset (50 + 1)).length
    · rw [queryFnPage_fst_of_lt h, List.length_dropLast]
      omega
    · rw [queryFnPage_fst_of_not_lt h]
      omega
  · by_cases h : 50 < (getMemosFromDb store ob dir offset (50 + 1)).length
    · rw [queryFnPage_fst_of_lt h, List.dropLast_eq_take]
      congr 1
      omega
    · rw [queryFnPage_fst_of_not_lt h]
      rw [List.take_of_length_le]
      omega

/-- Function `ExportPreview.getProcessedMemos`: sort with the JS comparator by the
chosen field/direction, then `slice(0, min(limitNum, sorted.length))`, where
`limitNum` is the numeric limit or, when the limit field is cleared
(non-numeric), the full length. -/
def getProcessedMemos (memos : List Memo) (ob : OrderBy) (dir : OrderDir)
    (limit : Option Nat) : List Memo :=
  let sorted := jsSortMemos ob dir memos
  let limitNum := match limit with | some n => n | none => sorted.length
  sorted.take (min limitNum sorted.length)

/-- C10: with a numeric limit `n` the processed slice is a prefix of the
sorted list of length `min n (number of memos)`; with the limit cleared the
whole sorted list is used. -/
theorem c10_limit_slice (memos : List Memo) (ob : OrderBy) (dir : OrderDir)
    (n : Nat) :
    getProcessedMemos memos ob dir (some n) =
      (jsSortMemos ob dir memos).take (min n memos.length) ∧
    (getProcessedMemos memos ob dir (some n)).length = min n memos.length ∧
    getProcessedMemos memos ob dir (some n) <+: jsSortMemos ob dir memos ∧
    getProcessedMemos memos ob dir none = jsSortMemos ob dir memos := by
  have hlen : (jsSortMemos ob dir memos).length = memos.length :=
    (List.perm_insertionSort _ memos).length_eq
  refine ⟨?_, ?_, ?_, ?_⟩
  · simp only [getProcessedMemos, hlen]
  · simp only [getProcessedMemos, List.length_take, hlen]
    omega
  · simp only [getProcessedMemos]
    exact List.take_prefix _ _
  · simp only [getProcessedMemos, min_self]
    exact List.take_of_length_le (le_of_eq rfl)

/-- Modelled from the spec: per-memo date projection — nothing when the
format spec is empty, otherwise the timestamp rendered per the spec. -/
def renderDate (fmt d : String) : String :=
  if fmt = "" then "" else d

/-- Modelled from the spec: URL, id, or nothing per `urlMode`. -/
def renderUrl (urlMode : String) (m : Memo) : String :=
  if urlMode = "full" then (match m.url with | some u => u | none => "")
  else if urlMode = "id" then m.slug
  else ""

/-- Modelled from the spec: the tag list projection used by the formatters. -/
def renderTags (tags : List String) : String :=
  String.intercalate " " (tags.map (fun t => "#" ++ t))

/-- Modelled from the spec: backend `format_memos_json_with_options` — a
structured encoding of the exact input slice, pretty or minified. -/
def formatMemosJson (memos : List Memo) (compact : Bool) (dateFormat : String) :
    String :=
  let sep := if compact then "," else ",\n"
  "[" ++ String.intercalate sep (memos.map (fun m =>
    "\x7b\"slug\":\"" ++ m.slug ++ "\",\"content\":\"" ++ m.content ++
      "\",\"date\":\"" ++ renderDate dateFormat m.created_at ++ "\"\x7d")) ++ "]"

/-- Modelled from the spec: backend `format_memos_markdown_with_options` —
one block per memo (one line per memo when `minimal`) with content, optional
date per `dateFormat`, tags, and a URL/id/nothing per `urlMode`. -/
def formatMemosMarkdown (memos : List Memo) (urlMode : String)
    (dateFormat : String) (minimal : Bool) : String :=
  if minimal then
    String.intercalate "\n" (memos.map (fun m =>
      m.content ++ " " ++ renderTags m.tags))
  else
    String.intercalate "\n\n" (memos.map (fun m =>
      m.content ++ "\n" ++ renderDate dateFormat m.created_at ++ "\n" ++
        renderTags m.tags ++ "\n" ++ renderUrl urlMode m))

/-- Modelled from the spec: backend `format_memos_table_with_options` — a
fixed-column text table with the same per-field projection rules. -/
def formatMemosTable (memos : List Memo) (dateFormat : String) : String :=
  String.intercalate "\n" (memos.map (fun m =>
    m.slug ++ " | " ++ renderDate dateFormat m.created_at ++ " | " ++
      m.content ++ " | " ++ renderTags m.tags))

/-- The state of the `ExportPreview` component: the memo prop, every export
option, and the fields the rendering must not depend on
(`preview`, `isExporting`, `error`). -/
structure ExportState where
  memos : List Memo
  selectedFormat : String
  dateFormat : String
  customDateFormat : String
  minimalMode : Bool
  compactJson : Bool
  urlMode : String
  orderBy : OrderBy
  orderDir : OrderDir
  limit : Option Nat
  preview : String
  isExporting : Bool
  error : Option String

/-- Function `ExportPreview.getDateFormatString`: empty for `"none"`, the custom text
for `"custom"`, otherwise the selected preset itself. -/
def getDateFormatString (s : ExportState) : String :=
  if s.dateFormat = "none" then ""
  else if s.dateFormat = "custom" then s.customDateFormat
  else s.dateFormat

/-- Function `ExportPreview.generatePreview`: process the memos (sort + limit),
compute the date format string, and dispatch on the selected format to the
corresponding formatter; an unknown format yields the empty string. -/
def generatePreview (s : ExportState) : String :=
  let processedMemos := getProcessedMemos s.memos s.orderBy s.orderDir s.limit
  let formatString := getDateFormatString s
  if s.selectedFormat = "json" then
    formatMemosJson processedMemos s.compactJson formatString
  else if s.selectedFormat = "markdown" then
    formatMemosMarkdown processedMemos s.urlMode formatString s.minimalMode
  else if s.selectedFormat = "table" then
    formatMemosTable processedMemos formatString
  else ""

/-- C5: export rendering is a pure function of the memo slice and the
configuration — two component states that agree on the memos and on every
export option (format, date format, custom format text, minimal, compact,
urlMode, order field, direction, limit) produce byte-identical preview
text, whatever their remaining fields (preview, isExporting, error) hold. -/
theorem c5_export_deterministic (s1 s2 : ExportState)
    (hm : s1.memos = s2.memos)
    (hf : s1.selectedFormat = s2.selectedFormat)
    (hd : s1.dateFormat = s2.dateFormat)
    (hc : s1.customDateFormat = s2.customDateFormat)
    (hmin : s1.minimalMode = s2.minimalMode)
    (hcj : s1.compactJson = s2.compactJson)
    (hu : s1.urlMode = s2.urlMode)
    (hob : s1.orderBy = s2.orderBy)
    (hod : s1.orderDir = s2.orderDir)
    (hl : s1.limit = s2.limit) :
    generatePreview s1 = generatePreview s2 := by
  simp only [generatePreview, getDateFormatString, hm, hf, hd, hc, hmin, hcj,
    hu, hob, hod, hl]

def exportStateA : ExportState :=
  { memos := demoStore, selectedFormat := "markdown",
    dateFormat := "yyyy-MM-dd HH:mm", customDateFormat := "yyyy-MM-dd HH:mm:ss",
    minimalMode := false, compactJson := false, urlMode := "full",
    orderBy := .created_at, orderDir := .desc, limit := some 10,
    preview := "", isExporting := false, error := none }

def exportStateB : ExportState :=
  { exportStateA with
    preview := "stale text"
    isExporting := true
    error := some "previous failure" }

theorem c5_export_deterministic_witness :
    (exportStateA.memos = exportStateB.memos ∧
      exportStateA.selectedFormat = exportStateB.selectedFormat ∧
      exportStateA.dateFormat = exportStateB.dateFormat ∧
      exportStateA.customDateFormat = exportStateB.customDateFormat ∧
      exportStateA.minimalMode = exportStateB.minimalMode ∧
      exportStateA.compactJson = exportStateB.compactJson ∧
      exportStateA.urlMode = exportStateB.urlMode ∧
      exportStateA.orderBy = exportStateB.orderBy ∧
      exportStateA.orderDir = exportStateB.orderDir ∧
      exportStateA.limit = exportStateB.limit) ∧
    generatePreview exportStateA = generatePreview exportStateB :=
  ⟨⟨rfl, rfl, rfl, rfl, rfl, rfl, rfl, rfl, rfl, rfl⟩,
    c5_export_deterministic exportStateA exportStateB
      rfl rfl rfl rfl rfl rfl rfl rfl rfl rfl⟩
